import Mathlib

/-!
Verification of `barf/analysis/codeanalyzer/codeanalyzer.py`, the code
analyzer of the BARF binary-analysis toolkit.  The Python module drives an
external SMT solver and SMT translator; here the module's own logic is
embedded shallowly in Lean, with the external collaborators (translator,
solver, architecture descriptor) abstracted as function parameters, and the
observable actions of the analyzer (translated instructions, solver
assertions, satisfiability checks, logged errors) recorded in an explicit
event trace.
-/

/-- SMT expressions, as the analyzer builds them through the translator and
`smtsymbol`/`smtfunction` helpers.  `eqc e v` is the assertion `e == v`
produced by comparing a symbolic expression against a concrete value;
`select m a` is the array read `m[a]`; `extract e off sz` is
`smtfunction.extract(e, off, sz)`; `concat w es` is
`smtfunction.concat(w, *es)` with the first list element most significant. -/
inductive SmtExpr : Type where
  | bitvec (size : Nat) (name : String)
  | const (size : Nat) (value : Int)
  | eqc (e : SmtExpr) (value : Int)
  | select (mem : SmtExpr) (addr : Nat)
  | extract (e : SmtExpr) (offset : Nat) (size : Nat)
  | concat (width : Nat) (es : List SmtExpr)
  | memArray (name : String)
  deriving Repr

/-- REIL mnemonics; only `JCC` is distinguished by the analyzer. -/
inductive ReilMnemonic : Type where
  | jcc
  | other (tag : Nat)
  deriving Repr, DecidableEq

/-- REIL operands: `ReilRegisterOperand`, `ReilImmediateOperand`, and the
remaining operand kinds (e.g. `ReilEmptyOperand`) that `get_operand_expr`
rejects. -/
inductive ReilOperand : Type where
  | register (name : String) (size : Nat)
  | immediate (value : Int) (size : Nat)
  | empty
  deriving Repr, DecidableEq

/-- A REIL instruction: composite address, mnemonic, ordered operands. -/
structure ReilInstr : Type where
  address : Nat
  mnemonic : ReilMnemonic
  operands : List ReilOperand
  deriving Repr, DecidableEq

/-- A dual instruction: one native instruction (address and encoded size,
`dinstr.address` / `dinstr.asm_instr.size`) with its REIL instructions. -/
structure DualInstruction : Type where
  address : Nat
  asmSize : Nat
  ir_instrs : List ReilInstr
  deriving Repr, DecidableEq

/-- A basic block with its three optional branch targets. -/
structure BasicBlock : Type where
  address : Nat
  end_address : Nat
  instrs : List DualInstruction
  taken_branch : Option Nat
  not_taken_branch : Option Nat
  direct_branch : Option Nat
  deriving Repr, DecidableEq

/-- The external collaborators of `check_path_satisfiability`: the SMT
translator's `translate` and `_translate_src_oprnd` (reached through
`get_operand_var`), and the solver's `check` viewed as a predicate on the
assertion list accumulated so far (`'sat'` ↦ `true`). -/
structure PathEnv : Type where
  translate : ReilInstr → List SmtExpr
  getOperandVar : ReilOperand → SmtExpr
  check : List SmtExpr → Bool

/-- Observable events of a path-satisfiability run. -/
inductive Event : Type where
  | translated (address : Nat)
  | asserted (e : SmtExpr)
  | checked (sat : Bool)
  | loggedError (address : Nat)
  deriving Repr

/-- Analyzer state threaded through the fold: the solver's assertion list,
the event trace, and the `start_instr_found` flag. -/
structure PathState : Type where
  assertions : List SmtExpr
  events : List Event
  startFound : Bool
  deriving Repr

/-- One REIL instruction of a dual instruction inside the pair
`(bb_curr, bb_next)`.  Returns the new state and a flag, `true` when the
Python `break` exits the REIL loop; `.error ()` is the `AssertionError`
raised by the `assert` on the branch-target addresses. -/
def processReil (env : PathEnv) (curr next : BasicBlock) (d : DualInstruction)
    (i : ReilInstr) (s : PathState) : Except Unit (PathState × Bool) :=
  if i.mnemonic = ReilMnemonic.jcc then
    if (d.address : Int) + d.asmSize - 1 ≠ curr.end_address then
      -- logger.error(...); continue
      .ok ({ s with events := s.events ++ [.loggedError d.address] }, false)
    else if curr.taken_branch ≠ some next.address ∧
            curr.not_taken_branch ≠ some next.address ∧
            curr.direct_branch ≠ some next.address then
      -- assert(taken == next or not_taken == next or direct == next)
      .error ()
    else if curr.taken_branch = some next.address then
      let bv := env.getOperandVar (i.operands.headD ReilOperand.empty)
      .ok ({ s with assertions := s.assertions ++ [.eqc bv 1],
                    events := s.events ++ [.asserted (.eqc bv 1)] }, true)
    else if curr.not_taken_branch = some next.address then
      let bv := env.getOperandVar (i.operands.headD ReilOperand.empty)
      .ok ({ s with assertions := s.assertions ++ [.eqc bv 0],
                    events := s.events ++ [.asserted (.eqc bv 0)] }, true)
    else
      -- direct_branch case: continue
      .ok (s, false)
  else
    let es := env.translate i
    .ok ({ s with assertions := s.assertions ++ es,
                  events := s.events ++ [.translated i.address] ++
                             es.map .asserted }, false)

/-- The REIL loop of one dual instruction, honouring the `break`. -/
def processReilList (env : PathEnv) (curr next : BasicBlock)
    (d : DualInstruction) : List ReilInstr → PathState → Except Unit PathState
  | [], s => .ok s
  | i :: rest, s => do
      let (s', brk) ← processReil env curr next d i s
      if brk then .ok s' else processReilList env curr next d rest s'

/-- One dual instruction of `bb_curr`, including the `start_instr_found`
bookkeeping: while the flag is unset, a dual instruction whose address
differs from `start_address` is skipped wholesale. -/
def processDinstr (env : PathEnv) (curr next : BasicBlock) (startAddr : Nat)
    (d : DualInstruction) (s : PathState) : Except Unit PathState :=
  if s.startFound then
    processReilList env curr next d d.ir_instrs s
  else if d.address = startAddr then
    processReilList env curr next d d.ir_instrs { s with startFound := true }
  else
    .ok s

/-- The dual-instruction loop over `bb_curr`. -/
def processDinstrList (env : PathEnv) (curr next : BasicBlock)
    (startAddr : Nat) : List DualInstruction → PathState →
    Except Unit PathState
  | [], s => .ok s
  | d :: rest, s => do
      let s' ← processDinstr env curr next startAddr d s
      processDinstrList env curr next startAddr rest s'

/-- One iteration of the outer fold: translate `bb_curr`'s instructions,
then issue one incremental satisfiability check. -/
def processBlockPair (env : PathEnv) (startAddr : Nat)
    (curr next : BasicBlock) (s : PathState) :
    Except Unit (PathState × Bool) := do
  let s' ← processDinstrList env curr next startAddr curr.instrs s
  let sat := env.check s'.assertions
  .ok ({ s' with events := s'.events ++ [.checked sat] }, sat)

/-- The fold over consecutive block pairs, with the early exit on an
unsatisfiable check.  `sat` carries the Python local of the same name. -/
def checkPathPairs (env : PathEnv) (startAddr : Nat) :
    List (BasicBlock × BasicBlock) → PathState → Bool →
    Except Unit (PathState × Bool)
  | [], s, sat => .ok (s, sat)
  | (c, n) :: rest, s, _ => do
      let (s', sat) ← processBlockPair env startAddr c n s
      if sat then checkPathPairs env startAddr rest s' sat
      else .ok (s', sat)

/-- `zip(path[:-1], path[1:])`. -/
def pathPairs : List BasicBlock → List (BasicBlock × BasicBlock)
  | [] => []
  | [_] => []
  | a :: b :: rest => (a, b) :: pathPairs (b :: rest)

/-- `CodeAnalyzer.check_path_satisfiability(path, start_address)`, run over
an initial solver assertion list `s0` (grown beforehand by `set_context`
and friends).  The result pairs the final state with the returned
satisfiability verdict; `.error ()` is a propagated `AssertionError`. -/
def check_path_satisfiability (env : PathEnv) (path : List BasicBlock)
    (startAddr : Nat) (s0 : List SmtExpr) : Except Unit (PathState × Bool) :=
  checkPathPairs env startAddr (pathPairs path) ⟨s0, [], false⟩ false

/-- `GenericRegister`: name, size and value.  The analyzer reads all three
in `set_context`, so they are concrete here. -/
structure GenericRegister : Type where
  name : String
  size : Nat
  value : Int
  deriving Repr, DecidableEq

/-- `GenericFlag`: name and value. -/
structure GenericFlag : Type where
  name : String
  value : Int
  deriving Repr, DecidableEq

/-- `GenericContext`: registers, flags and memory.  The Python dictionaries
become association lists, iterated in list order. -/
structure GenericContext : Type where
  registers : List (String × GenericRegister)
  flags : List (String × GenericFlag)
  memory : List (Nat × Int)
  deriving Repr, DecidableEq

/-- The translator capabilities `set_context` uses: `get_init_name` and the
memory-array expression returned by `get_memory()`. -/
structure CtxEnv : Type where
  getInitName : String → String
  memExpr : SmtExpr

/-- `CodeAnalyzer.set_context(context)` acting on the stored context and the
solver's assertion list.  Each loop iteration performs one `solver.add`,
appending one assertion; the assertion list is not cleared first. -/
def set_context (env : CtxEnv) (context : GenericContext)
    (stored : Option GenericContext) (assertions : List SmtExpr) :
    Option GenericContext × List SmtExpr :=
  let _ := stored
  let a1 := context.registers.foldl
    (fun acc p =>
      acc ++ [SmtExpr.eqc (.bitvec p.2.size (env.getInitName p.2.name))
                p.2.value])
    assertions
  let a2 := context.flags.foldl
    (fun acc p =>
      acc ++ [SmtExpr.eqc (.bitvec 32 (env.getInitName p.2.name)) p.2.value])
    a1
  let a3 := context.memory.foldl
    (fun acc p => acc ++ [SmtExpr.eqc (.select env.memExpr p.1) p.2])
    a2
  (some context, a3)

/-- The architecture descriptor: the set of architectural register names,
the `registers_size` mapping (modelled by its lookup function) and the
`alias_mapper` from sub-register name to (base name, bit offset). -/
structure ArchInfo : Type where
  registers_all : List String
  registers_size : String → Nat
  alias_mapper : String → Option (String × Nat)

/-- The translator naming scheme used by the expression resolvers:
`get_init_name` and `get_curr_name`. -/
structure NameEnv : Type where
  getInitName : String → String
  getCurrName : String → String

/-- `CodeAnalyzer._get_var_name(register_name, mode)`: `pre` resolves the
initial name, `post` the current one, anything else raises. -/
def getVarName (env : NameEnv) (register_name mode : String) :
    Except String String :=
  if mode = "pre" then .ok (env.getInitName register_name)
  else if mode = "post" then .ok (env.getCurrName register_name)
  else .error "Exception"

/-- `CodeAnalyzer.get_register_expr(register_name, mode)`. -/
def get_register_expr (arch : ArchInfo) (env : NameEnv)
    (register_name mode : String) : Except String SmtExpr :=
  match arch.alias_mapper register_name with
  | some (var_base_name, offset) => do
      let var_name ← getVarName env var_base_name mode
      let var_size := arch.registers_size var_base_name
      .ok (SmtExpr.extract (.bitvec var_size var_name) offset
             (arch.registers_size register_name))
  | none => do
      let var_name ← getVarName env register_name mode
      .ok (SmtExpr.bitvec (arch.registers_size register_name) var_name)

/-- `CodeAnalyzer.get_immediate_expr(immediate, size)`:
`smtsymbol.Constant(size, immediate)`. -/
def get_immediate_expr (immediate : Int) (size : Nat) : SmtExpr :=
  .const size immediate

/-- `CodeAnalyzer.get_operand_expr(operand, mode)`. -/
def get_operand_expr (arch : ArchInfo) (env : NameEnv) (operand : ReilOperand)
    (mode : String) : Except String SmtExpr :=
  match operand with
  | .register name size =>
      if name ∈ arch.registers_all then
        get_register_expr arch env name mode
      else do
        let var_name ← getVarName env name mode
        .ok (SmtExpr.bitvec size var_name)
  | .immediate value size => .ok (get_immediate_expr value size)
  | .empty => .error "Invalid operand"

/-- `CodeAnalyzer.get_memory(mode)`: the translator's initial memory array
for `pre`, its current one for `post`, an exception otherwise. -/
def get_memory (memInit memCur : SmtExpr) (mode : String) :
    Except String SmtExpr :=
  if mode = "pre" then .ok memInit
  else if mode = "post" then .ok memCur
  else .error "Exception"

/-- `CodeAnalyzer.get_memory_expr(address, size, mode)`: `size` byte reads
at `address + 0 .. address + size - 1`, reversed and concatenated. -/
def get_memory_expr (memInit memCur : SmtExpr) (address size : Nat)
    (mode : String) : Except String SmtExpr := do
  let mem ← get_memory memInit memCur mode
  let bytes_exprs := (List.range size).map
    (fun index => SmtExpr.select mem (address + index))
  .ok (SmtExpr.concat 8 bytes_exprs.reverse)

/-- Modelled from the spec: `smtfunction.concat` lives in
`barf/core/smt/smtfunction.py`, which is not under `src/`; the spec states
the arguments are "concatenated most-significant-byte-first".  `msbValue`
gives that semantics to a list of 8-bit reads under a byte valuation `m` of
memory: the head of the list is the most significant byte. -/
def msbValue (m : Nat → Nat) : List SmtExpr → Nat
  | [] => 0
  | e :: rest =>
      (match e with
       | .select _ a => m a % 256
       | _ => 0) * 256 ^ rest.length + msbValue m rest

/-- Recognizes a satisfiability-check event. -/
def isCheckedEvent : Event → Bool
  | .checked _ => true
  | _ => false

/-- Number of solver satisfiability checks recorded in a trace. -/
def countChecked (events : List Event) : Nat :=
  events.countP isCheckedEvent

/-- Verdict of the last satisfiability check recorded in a trace. -/
def lastChecked : List Event → Option Bool
  | [] => none
  | e :: rest =>
      match lastChecked rest with
      | some b => some b
      | none =>
          match e with
          | .checked b => some b
          | _ => none

/-- Concrete sample environment used to exercise the embedding on closed
inputs: translation emits one labelled assertion per instruction, and the
solver reports every assertion list satisfiable. -/
def sampleEnv : PathEnv where
  translate := fun i => [.eqc (.bitvec 32 "ins") (i.address : Int)]
  getOperandVar := fun _ => .bitvec 1 "branch"
  check := fun _ => true

/-- C10: for every path of fewer than two basic blocks,
`check_path_satisfiability` returns `False` without translating any
instruction, adding any assertion, or performing any solver check: the
final state keeps the initial assertion list and an empty event trace. -/
theorem C10_short_path_returns_false (env : PathEnv) (path : List BasicBlock)
    (startAddr : Nat) (s0 : List SmtExpr) (h : path.length < 2) :
    check_path_satisfiability env path startAddr s0 =
      .ok (⟨s0, [], false⟩, false) := by
  cases path with
  | nil => rfl
  | cons a t =>
      cases t with
      | nil => rfl
      | cons b r => simp [List.length] at h; omega

/-- Witness for C10 at a concrete one-block path. -/
theorem C10_short_path_returns_false_witness :
    check_path_satisfiability sampleEnv
      [⟨0, 0, [], none, none, none⟩] 0 [.eqc (.bitvec 1 "x") 1] =
      .ok (⟨[.eqc (.bitvec 1 "x") 1], [], false⟩, false) :=
  C10_short_path_returns_false sampleEnv [⟨0, 0, [], none, none, none⟩] 0
    [.eqc (.bitvec 1 "x") 1] (by decide)

/-- C5: a conditional-branch (JCC) REIL instruction whose native
instruction's end address does not coincide with the current block's
`end_address` is logged as an error and skipped without translation: no
assertion is emitted, no exception is raised, and the REIL loop continues
with the remaining instructions. -/
theorem C5_jcc_misposition_logged_and_skipped (env : PathEnv)
    (curr next : BasicBlock) (d : DualInstruction) (i : ReilInstr)
    (s : PathState) (hj : i.mnemonic = ReilMnemonic.jcc)
    (hpos : (d.address : Int) + d.asmSize - 1 ≠ curr.end_address) :
    processReil env curr next d i s =
      .ok ({ s with events := s.events ++ [.loggedError d.address] },
           false) ∧
    ∀ rest, processReilList env curr next d (i :: rest) s =
      processReilList env curr next d rest
        { s with events := s.events ++ [.loggedError d.address] } := by
  have h1 : processReil env curr next d i s =
      .ok ({ s with events := s.events ++ [.loggedError d.address] },
           false) := by
    simp [processReil, hj, hpos]
  refine ⟨h1, fun rest => ?_⟩
  simp only [processReilList, h1]
  rfl

/-- Witness for C5: a JCC at native address 4 of size 2 inside a block
ending at 100 is logged and skipped. -/
theorem C5_jcc_misposition_logged_and_skipped_witness :
    processReil sampleEnv ⟨0, 100, [], none, none, none⟩
      ⟨200, 200, [], none, none, none⟩ ⟨4, 2, []⟩
      ⟨4, .jcc, [.register "t0" 1]⟩ ⟨[], [], true⟩ =
      .ok (⟨[], [.loggedError 4], true⟩, false) :=
  (C5_jcc_misposition_logged_and_skipped sampleEnv
    ⟨0, 100, [], none, none, none⟩ ⟨200, 200, [], none, none, none⟩
    ⟨4, 2, []⟩ ⟨4, .jcc, [.register "t0" 1]⟩ ⟨[], [], true⟩
    rfl (by decide)).1

/-- C2: for a well-positioned conditional-branch REIL instruction at the
end of `curr`, the edge is classified against `next.address` in the
priority order taken / not-taken / direct: a `taken_branch` match asserts
that the symbolic expression of the instruction's first operand equals `1`
(and ends the block's REIL loop), a `not_taken_branch` match asserts it
equals `0`, and a match of `direct_branch` alone adds no branch-condition
assertion and merely skips the conditional-branch handling for this
instruction. -/
theorem C2_branch_goal_priority (env : PathEnv) (curr next : BasicBlock)
    (d : DualInstruction) (i : ReilInstr) (s : PathState) (op : ReilOperand)
    (ops : List ReilOperand) (hj : i.mnemonic = ReilMnemonic.jcc)
    (hops : i.operands = op :: ops)
    (hpos : (d.address : Int) + d.asmSize - 1 = curr.end_address) :
    (curr.taken_branch = some next.address →
       processReil env curr next d i s =
         .ok ({ s with
                assertions := s.assertions ++
                  [.eqc (env.getOperandVar op) 1],
                events := s.events ++
                  [.asserted (.eqc (env.getOperandVar op) 1)] }, true)) ∧
    (curr.taken_branch ≠ some next.address →
     curr.not_taken_branch = some next.address →
       processReil env curr next d i s =
         .ok ({ s with
                assertions := s.assertions ++
                  [.eqc (env.getOperandVar op) 0],
                events := s.events ++
                  [.asserted (.eqc (env.getOperandVar op) 0)] }, true)) ∧
    (curr.taken_branch ≠ some next.address →
     curr.not_taken_branch ≠ some next.address →
     curr.direct_branch = some next.address →
       processReil env curr next d i s = .ok (s, false)) := by
  refine ⟨fun ht => ?_, fun ht hn => ?_, fun ht hn hd => ?_⟩
  · simp [processReil, hj, hops, hpos, ht]
  · simp [processReil, hj, hops, hpos, ht, hn]
  · simp [processReil, hj, hops, hpos, ht, hn, hd]

/-- Witness for C2: all three edge classifications at concrete blocks, the
first one also witnessing the taken-over-direct priority (both fields
match). -/
theorem C2_branch_goal_priority_witness :
    (processReil sampleEnv
        ⟨0, 0, [], some 50, none, some 50⟩ ⟨50, 60, [], none, none, none⟩
        ⟨0, 1, []⟩ ⟨0, .jcc, [.register "t3" 1]⟩ ⟨[], [], true⟩ =
      .ok (⟨[.eqc (.bitvec 1 "branch") 1],
            [.asserted (.eqc (.bitvec 1 "branch") 1)], true⟩, true)) ∧
    (processReil sampleEnv
        ⟨0, 0, [], some 99, some 50, none⟩ ⟨50, 60, [], none, none, none⟩
        ⟨0, 1, []⟩ ⟨0, .jcc, [.register "t3" 1]⟩ ⟨[], [], true⟩ =
      .ok (⟨[.eqc (.bitvec 1 "branch") 0],
            [.asserted (.eqc (.bitvec 1 "branch") 0)], true⟩, true)) ∧
    (processReil sampleEnv
        ⟨0, 0, [], some 99, none, some 50⟩ ⟨50, 60, [], none, none, none⟩
        ⟨0, 1, []⟩ ⟨0, .jcc, [.register "t3" 1]⟩ ⟨[], [], true⟩ =
      .ok (⟨[], [], true⟩, false)) := by
  refine ⟨?_, ?_, ?_⟩
  · exact (C2_branch_goal_priority sampleEnv
      ⟨0, 0, [], some 50, none, some 50⟩ ⟨50, 60, [], none, none, none⟩
      ⟨0, 1, []⟩ ⟨0, .jcc, [.register "t3" 1]⟩ ⟨[], [], true⟩
      (.register "t3" 1) [] rfl rfl (by decide)).1 rfl
  · exact (C2_branch_goal_priority sampleEnv
      ⟨0, 0, [], some 99, some 50, none⟩ ⟨50, 60, [], none, none, none⟩
      ⟨0, 1, []⟩ ⟨0, .jcc, [.register "t3" 1]⟩ ⟨[], [], true⟩
      (.register "t3" 1) [] rfl rfl (by decide)).2.1 (by decide) rfl
  · exact (C2_branch_goal_priority sampleEnv
      ⟨0, 0, [], some 99, none, some 50⟩ ⟨50, 60, [], none, none, none⟩
      ⟨0, 1, []⟩ ⟨0, .jcc, [.register "t3" 1]⟩ ⟨[], [], true⟩
      (.register "t3" 1) [] rfl rfl (by decide)).2.2 (by decide) (by decide) rfl

/-- Two-block sample path whose first block ends in a well-positioned JCC
while none of its three branch-target fields equals the second block's
address (`100`). -/
def unmatchedEdgeBlockA : BasicBlock :=
  ⟨0, 0, [⟨0, 1, [⟨0, .jcc, [.register "t0" 1]⟩]⟩],
   some 999, none, none⟩

/-- Successor block of `unmatchedEdgeBlockA` in the sample path. -/
def unmatchedEdgeBlockB : BasicBlock := ⟨100, 100, [], none, none, none⟩

/-- Counterexample to C1: at this concrete path the conditional-branch REIL
instruction sits at the terminal position of the first block, yet
`taken_branch = 999`, `not_taken_branch = None` and `direct_branch = None`
all differ from the next block's address `100`; `check_path_satisfiability`
does not skip the instruction silently — the `assert` on the branch-target
addresses fails and the call raises `AssertionError`. -/
theorem C1_counterexample_assert_raises :
    check_path_satisfiability sampleEnv
      [unmatchedEdgeBlockA, unmatchedEdgeBlockB] 0 [] = .error () := rfl

/-- C1 amended: when the current block ends in a well-positioned
conditional-branch REIL instruction and none of `taken_branch`,
`not_taken_branch`, `direct_branch` equals the next block's address, the
instruction is not silently skipped: the branch-target `assert` fails and
`check_path_satisfiability` raises `AssertionError`, aborting the
satisfiability check. -/
theorem C1_amended_unmatched_edge_raises (env : PathEnv) (c n : BasicBlock)
    (d : DualInstruction) (i : ReilInstr) (startAddr : Nat)
    (s0 : List SmtExpr) (hinstr : c.instrs = [d])
    (hdaddr : d.address = startAddr) (hir : d.ir_instrs = [i])
    (hj : i.mnemonic = ReilMnemonic.jcc)
    (hpos : (d.address : Int) + d.asmSize - 1 = c.end_address)
    (ht : c.taken_branch ≠ some n.address)
    (hn : c.not_taken_branch ≠ some n.address)
    (hd : c.direct_branch ≠ some n.address) :
    check_path_satisfiability env [c, n] startAddr s0 = .error () := by
  have hr : processReil env c n d i ⟨s0, [], true⟩ = .error () := by
    simp [processReil, hj, hpos, ht, hn, hd]
  by_cases hsf : startAddr = d.address
  · simp [check_path_satisfiability, pathPairs, checkPathPairs,
          processBlockPair, hinstr, processDinstrList, processDinstr,
          hdaddr, hir, processReilList, hr]
    rfl
  · exact absurd hdaddr (fun h => hsf h.symm)

/-- Witness for the amended C1 at the concrete sample path. -/
theorem C1_amended_unmatched_edge_raises_witness :
    check_path_satisfiability sampleEnv
      [unmatchedEdgeBlockA, unmatchedEdgeBlockB] 0 [.eqc (.bitvec 1 "p") 1] =
      .error () :=
  C1_amended_unmatched_edge_raises sampleEnv unmatchedEdgeBlockA
    unmatchedEdgeBlockB ⟨0, 1, [⟨0, .jcc, [.register "t0" 1]⟩]⟩
    ⟨0, .jcc, [.register "t0" 1]⟩ 0 [.eqc (.bitvec 1 "p") 1]
    rfl rfl rfl rfl (by decide) (by decide) (by decide) (by decide)

theorem countChecked_append (xs ys : List Event) :
    countChecked (xs ++ ys) = countChecked xs + countChecked ys := by
  simp [countChecked, List.countP_append]

theorem countChecked_map_asserted (es : List SmtExpr) :
    countChecked (es.map .asserted) = 0 := by
  induction es with
  | nil => rfl
  | cons e t ih =>
      simp [countChecked, List.countP_cons, isCheckedEvent]

theorem lastChecked_append_checked (xs : List Event) (b : Bool) :
    lastChecked (xs ++ [Event.checked b]) = some b := by
  induction xs with
  | nil => rfl
  | cons e t ih => simp [lastChecked, ih]

/-- A successful `processReil` step preserves the start flag and performs
no satisfiability check. -/
theorem processReil_shape (env : PathEnv) (curr next : BasicBlock)
    (d : DualInstruction) (i : ReilInstr) (s s' : PathState) (brk : Bool)
    (h : processReil env curr next d i s = .ok (s', brk)) :
    s'.startFound = s.startFound ∧
    countChecked s'.events = countChecked s.events := by
  unfold processReil at h
  split at h
  · split at h
    · simp only [Except.ok.injEq, Prod.mk.injEq] at h
      obtain ⟨h1, -⟩ := h
      subst h1
      refine ⟨rfl, ?_⟩
      simp [countChecked_append, countChecked, isCheckedEvent]
    · split at h
      · exact Except.noConfusion h
      · split at h
        · simp only [Except.ok.injEq, Prod.mk.injEq] at h
          obtain ⟨h1, -⟩ := h
          subst h1
          refine ⟨rfl, ?_⟩
          simp [countChecked_append, countChecked, isCheckedEvent]
        · split at h
          · simp only [Except.ok.injEq, Prod.mk.injEq] at h
            obtain ⟨h1, -⟩ := h
            subst h1
            refine ⟨rfl, ?_⟩
            simp [countChecked_append, countChecked, isCheckedEvent]
          · simp only [Except.ok.injEq, Prod.mk.injEq] at h
            obtain ⟨h1, -⟩ := h
            subst h1
            exact ⟨rfl, rfl⟩
  · simp only [Except.ok.injEq, Prod.mk.injEq] at h
    obtain ⟨h1, -⟩ := h
    subst h1
    refine ⟨rfl, ?_⟩
    simp [countChecked_append, countChecked_map_asserted, countChecked,
          isCheckedEvent]

/-- The REIL loop preserves the start flag and performs no check. -/
theorem processReilList_shape (env : PathEnv) (curr next : BasicBlock)
    (d : DualInstruction) (irs : List ReilInstr) (s s' : PathState)
    (h : processReilList env curr next d irs s = .ok s') :
    s'.startFound = s.startFound ∧
    countChecked s'.events = countChecked s.events := by
  induction irs generalizing s with
  | nil =>
      simp only [processReilList, Except.ok.injEq] at h
      subst h
      exact ⟨rfl, rfl⟩
  | cons i rest ih =>
      rw [processReilList] at h
      cases hr : processReil env curr next d i s with
      | error e => rw [hr] at h; exact Except.noConfusion h
      | ok p =>
          obtain ⟨s1, brk⟩ := p
          rw [hr] at h
          obtain ⟨hf, hc⟩ := processReil_shape env curr next d i s s1 brk hr
          cases brk with
          | true =>
              replace h : Except.ok (ε := Unit) s1 = .ok s' := h
              simp only [Except.ok.injEq] at h
              subst h
              exact ⟨hf, hc⟩
          | false =>
              replace h : processReilList env curr next d rest s1 = .ok s' := h
              obtain ⟨hf', hc'⟩ := ih s1 h
              exact ⟨hf'.trans hf, hc'.trans hc⟩

/-- One dual-instruction step performs no check. -/
theorem processDinstr_countChecked (env : PathEnv) (curr next : BasicBlock)
    (startAddr : Nat) (d : DualInstruction) (s s' : PathState)
    (h : processDinstr env curr next startAddr d s = .ok s') :
    countChecked s'.events = countChecked s.events := by
  unfold processDinstr at h
  split at h
  · exact (processReilList_shape env curr next d d.ir_instrs s s' h).2
  · split at h
    · exact (processReilList_shape env curr next d d.ir_instrs _ s' h).2
    · simp only [Except.ok.injEq] at h
      subst h
      rfl

/-- The dual-instruction loop performs no check. -/
theorem processDinstrList_countChecked (env : PathEnv)
    (curr next : BasicBlock) (startAddr : Nat) (ds : List DualInstruction)
    (s s' : PathState)
    (h : processDinstrList env curr next startAddr ds s = .ok s') :
    countChecked s'.events = countChecked s.events := by
  induction ds generalizing s with
  | nil =>
      simp only [processDinstrList, Except.ok.injEq] at h
      subst h
      rfl
  | cons d rest ih =>
      rw [processDinstrList] at h
      cases hd : processDinstr env curr next startAddr d s with
      | error e => rw [hd] at h; exact Except.noConfusion h
      | ok s1 =>
          rw [hd] at h
          replace h : processDinstrList env curr next startAddr rest s1 =
            .ok s' := h
          exact (ih s1 h).trans
            (processDinstr_countChecked env curr next startAddr d s s1 hd)

/-- Characterization of a successful `processBlockPair` iteration: the
dual-instruction loop succeeds, then exactly one check is issued on the
resulting assertion list, its verdict recorded and returned. -/
theorem processBlockPair_shape (env : PathEnv) (startAddr : Nat)
    (c n : BasicBlock) (s s' : PathState) (sat : Bool)
    (h : processBlockPair env startAddr c n s = .ok (s', sat)) :
    ∃ s2, processDinstrList env c n startAddr c.instrs s = .ok s2 ∧
      sat = env.check s2.assertions ∧
      s' = { s2 with events := s2.events ++ [.checked sat] } := by
  unfold processBlockPair at h
  cases hd : processDinstrList env c n startAddr c.instrs s with
  | error e => rw [hd] at h; exact Except.noConfusion h
  | ok s2 =>
      rw [hd] at h
      replace h : Except.ok (ε := Unit)
          ({ s2 with events := s2.events ++
              [Event.checked (env.check s2.assertions)] },
           env.check s2.assertions) = .ok (s', sat) := h
      simp only [Except.ok.injEq, Prod.mk.injEq] at h
      obtain ⟨h1, h2⟩ := h
      subst h2
      exact ⟨s2, rfl, rfl, h1.symm⟩

/-- C3: each outer-fold iteration issues exactly one incremental
satisfiability check after finishing the current block's instructions; an
unsatisfiable check stops the fold immediately, returning unsatisfiable
with no subsequent block translated; and a fold that completes having
performed at least one check returns the verdict of the last check
performed. -/
theorem C3_one_check_per_block_last_check_returned (env : PathEnv)
    (startAddr : Nat) :
    (∀ c n s s' sat, processBlockPair env startAddr c n s = .ok (s', sat) →
       countChecked s'.events = countChecked s.events + 1) ∧
    (∀ c n rest s s1 sat0,
       processBlockPair env startAddr c n s = .ok (s1, false) →
       checkPathPairs env startAddr ((c, n) :: rest) s sat0 =
         .ok (s1, false)) ∧
    (∀ pairs s sat0 s' r, pairs ≠ [] →
       checkPathPairs env startAddr pairs s sat0 = .ok (s', r) →
       lastChecked s'.events = some r) := by
  refine ⟨?_, ?_, ?_⟩
  · intro c n s s' sat h
    obtain ⟨s2, hd, hsat, hs'⟩ :=
      processBlockPair_shape env startAddr c n s s' sat h
    subst hs'
    rw [countChecked_append,
        processDinstrList_countChecked env c n startAddr c.instrs s s2 hd]
    rfl
  · intro c n rest s s1 sat0 h
    rw [checkPathPairs, h]
    rfl
  · intro pairs
    induction pairs with
    | nil => intro s sat0 s' r hne; exact absurd rfl hne
    | cons p rest ih =>
        obtain ⟨c, n⟩ := p
        intro s sat0 s' r hne h
        rw [checkPathPairs] at h
        cases hb : processBlockPair env startAddr c n s with
        | error e => rw [hb] at h; exact Except.noConfusion h
        | ok q =>
            obtain ⟨s1, sat1⟩ := q
            rw [hb] at h
            obtain ⟨s2, hd, hsat, hs1⟩ :=
              processBlockPair_shape env startAddr c n s s1 sat1 hb
            cases sat1 with
            | false =>
                replace h : Except.ok (ε := Unit) (s1, false) =
                  .ok (s', r) := h
                simp only [Except.ok.injEq, Prod.mk.injEq] at h
                obtain ⟨h1, h2⟩ := h
                subst h1
                subst h2
                rw [hs1]
                exact lastChecked_append_checked s2.events false
            | true =>
                replace h : checkPathPairs env startAddr rest s1 true =
                  .ok (s', r) := h
                cases rest with
                | nil =>
                    replace h : Except.ok (ε := Unit) (s1, true) =
                      .ok (s', r) := h
                    simp only [Except.ok.injEq, Prod.mk.injEq] at h
                    obtain ⟨h1, h2⟩ := h
                    subst h1
                    subst h2
                    rw [hs1]
                    exact lastChecked_append_checked s2.events true
                | cons p2 rest2 =>
                    exact ih s1 true s' r (by simp) h

/-- Witness for C3 at a concrete two-block path with an unsatisfiable
solver: one check happens, the fold stops at once, and the last recorded
check is the returned verdict. -/
theorem C3_one_check_per_block_last_check_returned_witness :
    (processBlockPair
        ⟨fun i => [.eqc (.bitvec 32 "ins") (i.address : Int)],
         fun _ => .bitvec 1 "branch", fun _ => false⟩ 0
        ⟨0, 0, [], none, none, some 50⟩ ⟨50, 60, [], none, none, none⟩
        ⟨[], [], false⟩ = .ok (⟨[], [.checked false], false⟩, false)) ∧
    countChecked [Event.checked false] = countChecked ([] : List Event) + 1 ∧
    checkPathPairs
        ⟨fun i => [.eqc (.bitvec 32 "ins") (i.address : Int)],
         fun _ => .bitvec 1 "branch", fun _ => false⟩ 0
        [(⟨0, 0, [], none, none, some 50⟩, ⟨50, 60, [], none, none, none⟩),
         (⟨50, 60, [], none, none, none⟩, ⟨70, 80, [], none, none, none⟩)]
        ⟨[], [], false⟩ false = .ok (⟨[], [.checked false], false⟩, false) ∧
    lastChecked [Event.checked false] = some false := by
  have hb : processBlockPair
      ⟨fun i => [.eqc (.bitvec 32 "ins") (i.address : Int)],
       fun _ => .bitvec 1 "branch", fun _ => false⟩ 0
      ⟨0, 0, [], none, none, some 50⟩ ⟨50, 60, [], none, none, none⟩
      ⟨[], [], false⟩ = .ok (⟨[], [.checked false], false⟩, false) := rfl
  refine ⟨hb, ?_, ?_, ?_⟩
  · exact (C3_one_check_per_block_last_check_returned
      ⟨fun i => [.eqc (.bitvec 32 "ins") (i.address : Int)],
       fun _ => .bitvec 1 "branch", fun _ => false⟩ 0).1
      ⟨0, 0, [], none, none, some 50⟩ ⟨50, 60, [], none, none, none⟩
      ⟨[], [], false⟩ ⟨[], [.checked false], false⟩ false hb
  · exact (C3_one_check_per_block_last_check_returned
      ⟨fun i => [.eqc (.bitvec 32 "ins") (i.address : Int)],
       fun _ => .bitvec 1 "branch", fun _ => false⟩ 0).2.1
      ⟨0, 0, [], none, none, some 50⟩ ⟨50, 60, [], none, none, none⟩
      [(⟨50, 60, [], none, none, none⟩, ⟨70, 80, [], none, none, none⟩)]
      ⟨[], [], false⟩ ⟨[], [.checked false], false⟩ false hb
  · exact (C3_one_check_per_block_last_check_returned
      ⟨fun i => [.eqc (.bitvec 32 "ins") (i.address : Int)],
       fun _ => .bitvec 1 "branch", fun _ => false⟩ 0).2.2
      [(⟨0, 0, [], none, none, some 50⟩, ⟨50, 60, [], none, none, none⟩)]
      ⟨[], [], false⟩ false ⟨[], [.checked false], false⟩ false (by simp)
      (by rw [checkPathPairs, hb]; rfl)

/-- First block of the C4 sample path: one instruction at address 5. -/
def skipBlockA : BasicBlock :=
  ⟨0, 5, [⟨5, 1, [⟨5, .other 0, []⟩]⟩], none, none, some 10⟩

/-- Second block of the C4 sample path: instructions at 10 and 20; the
path's `start_address` will be 20, inside this block. -/
def skipBlockB : BasicBlock :=
  ⟨10, 20, [⟨10, 1, [⟨10, .other 0, []⟩]⟩, ⟨20, 1, [⟨20, .other 0, []⟩]⟩],
   none, none, some 30⟩

/-- Third block of the C4 sample path. -/
def skipBlockC : BasicBlock := ⟨30, 30, [], none, none, none⟩

/-- Counterexample to C4: with `start_address = 20`, the address of an
instruction of the second block, the run translates only the instruction at
address 20 — the second block's instruction at address 10 is skipped by
the very same start-address mechanism, although it is not in the first
block.  The trace contains no `translated 10` event, refuting the claim
that start-address skipping never applies to blocks after the first. -/
theorem C4_counterexample_skipping_crosses_blocks :
    check_path_satisfiability sampleEnv [skipBlockA, skipBlockB, skipBlockC]
      20 [] =
      .ok (⟨[.eqc (.bitvec 32 "ins") 20],
            [.checked true, .translated 20,
             .asserted (.eqc (.bitvec 32 "ins") 20), .checked true],
            true⟩, true) := rfl

/-- C4 amended: instructions are skipped (no translation, no assertion)
while the start flag is unset and the dual instruction's address differs
from `start_address` — in whatever block, not only the first; the dual
instruction whose address equals `start_address` sets the flag and is
processed, and the flag is never reset by instruction processing, so every
later instruction of the path is processed. -/
theorem C4_amended_start_address_flag (env : PathEnv)
    (curr next : BasicBlock) (startAddr : Nat) (d : DualInstruction)
    (s : PathState) :
    (s.startFound = false → d.address ≠ startAddr →
       processDinstr env curr next startAddr d s = .ok s) ∧
    (s.startFound = false → d.address = startAddr →
       processDinstr env curr next startAddr d s =
         processReilList env curr next d d.ir_instrs
           { s with startFound := true }) ∧
    (s.startFound = true →
       processDinstr env curr next startAddr d s =
         processReilList env curr next d d.ir_instrs s) ∧
    (∀ s', processReilList env curr next d d.ir_instrs s = .ok s' →
       s'.startFound = s.startFound) := by
  refine ⟨fun hf ha => ?_, fun hf ha => ?_, fun hf => ?_, fun s' h => ?_⟩
  · simp [processDinstr, hf, ha]
  · simp [processDinstr, hf, ha]
  · simp [processDinstr, hf]
  · exact (processReilList_shape env curr next d d.ir_instrs s s' h).1

/-- Witness for the amended C4 at concrete instructions: the skipped case,
the flag-setting case and the flag-preservation case. -/
theorem C4_amended_start_address_flag_witness :
    (processDinstr sampleEnv skipBlockB skipBlockC 20
       ⟨10, 1, [⟨10, .other 0, []⟩]⟩ ⟨[], [], false⟩ = .ok ⟨[], [], false⟩) ∧
    (processDinstr sampleEnv skipBlockB skipBlockC 20
       ⟨20, 1, [⟨20, .other 0, []⟩]⟩ ⟨[], [], false⟩ =
       processReilList sampleEnv skipBlockB skipBlockC
         ⟨20, 1, [⟨20, .other 0, []⟩]⟩ [⟨20, .other 0, []⟩]
         ⟨[], [], true⟩) ∧
    (⟨[.eqc (.bitvec 32 "ins") 20],
      [.translated 20, .asserted (.eqc (.bitvec 32 "ins") 20)],
      true⟩ : PathState).startFound = (⟨[], [], true⟩ : PathState).startFound := by
  refine ⟨?_, ?_, ?_⟩
  · exact (C4_amended_start_address_flag sampleEnv skipBlockB skipBlockC 20
      ⟨10, 1, [⟨10, .other 0, []⟩]⟩ ⟨[], [], false⟩).1 rfl (by decide)
  · exact (C4_amended_start_address_flag sampleEnv skipBlockB skipBlockC 20
      ⟨20, 1, [⟨20, .other 0, []⟩]⟩ ⟨[], [], false⟩).2.1 rfl rfl
  · exact (C4_amended_start_address_flag sampleEnv skipBlockB skipBlockC 20
      ⟨20, 1, [⟨20, .other 0, []⟩]⟩ ⟨[], [], true⟩).2.2.2
      ⟨[.eqc (.bitvec 32 "ins") 20],
       [.translated 20, .asserted (.eqc (.bitvec 32 "ins") 20)], true⟩ rfl

/-- Appending one element per list entry via a left fold is the same as
appending the mapped list. -/
theorem foldl_append_singleton {α β : Type} (f : α → β) (l : List α)
    (init : List β) :
    l.foldl (fun acc p => acc ++ [f p]) init = init ++ l.map f := by
  induction l generalizing init with
  | nil => simp
  | cons a t ih => simp [List.foldl, ih]

/-- C6: `set_context` stores the context as the analyzer's reference
snapshot and grows the solver's assertion set — without resetting it — by
exactly one assertion per context entry: for each register an equality of
the initial-named bit-vector at the register's declared width with its
value, for each flag the same at the fixed 32-bit flag width, for each
memory address an equality of the memory array read at that address with
its byte value; nothing is asserted for absent entries since only the
context's own lists are traversed. -/
theorem C6_set_context_assertions (env : CtxEnv) (context : GenericContext)
    (stored : Option GenericContext) (assertions : List SmtExpr) :
    set_context env context stored assertions =
      (some context,
       assertions
         ++ context.registers.map
              (fun p => SmtExpr.eqc
                (.bitvec p.2.size (env.getInitName p.2.name)) p.2.value)
         ++ context.flags.map
              (fun p => SmtExpr.eqc
                (.bitvec 32 (env.getInitName p.2.name)) p.2.value)
         ++ context.memory.map
              (fun p => SmtExpr.eqc (.select env.memExpr p.1) p.2)) := by
  unfold set_context
  simp only [foldl_append_singleton]

/-- C7: register-expression resolution.  For an alias, the bit range
`[offset, offset + registers_size[name])` is extracted from the base
register's mode-appropriate symbolic bit-vector built at the base
register's full width; for a non-alias, a bit-vector named for `name`
under the mode-appropriate naming and sized by `registers_size[name]`. -/
theorem C7_get_register_expr (arch : ArchInfo) (env : NameEnv)
    (name mode : String) (hmode : mode = "pre" ∨ mode = "post") :
    (∀ base offset, arch.alias_mapper name = some (base, offset) →
       ∃ vn, getVarName env base mode = .ok vn ∧
         get_register_expr arch env name mode =
           .ok (.extract (.bitvec (arch.registers_size base) vn) offset
                  (arch.registers_size name))) ∧
    (arch.alias_mapper name = none →
       ∃ vn, getVarName env name mode = .ok vn ∧
         get_register_expr arch env name mode =
           .ok (.bitvec (arch.registers_size name) vn)) := by
  refine ⟨fun base offset halias => ?_, fun halias => ?_⟩
  · rcases hmode with h | h <;> subst h
    · exact ⟨env.getInitName base, rfl,
        by simp [get_register_expr, halias, getVarName]; rfl⟩
    · exact ⟨env.getCurrName base, rfl,
        by simp [get_register_expr, halias, getVarName]; rfl⟩
  · rcases hmode with h | h <;> subst h
    · exact ⟨env.getInitName name, rfl,
        by simp [get_register_expr, halias, getVarName]; rfl⟩
    · exact ⟨env.getCurrName name, rfl,
        by simp [get_register_expr, halias, getVarName]; rfl⟩

/-- Sample architecture: `eax` is architectural with 32 bits, `ax` is an
alias for its low 16 bits. -/
def sampleArch : ArchInfo where
  registers_all := ["eax"]
  registers_size := fun n => if n = "eax" then 32 else if n = "ax" then 16 else 8
  alias_mapper := fun n => if n = "ax" then some ("eax", 0) else none

/-- Sample naming scheme for witnesses. -/
def sampleNames : NameEnv where
  getInitName := fun n => n ++ "_0"
  getCurrName := fun n => n ++ "_1"

/-- Witness for C7: the alias `ax` resolves to an extraction of bits
`[0, 16)` from `eax`'s current 32-bit bit-vector, and the non-alias `zz`
to a directly named 8-bit vector. -/
theorem C7_get_register_expr_witness :
    (∃ vn, getVarName sampleNames "eax" "post" = .ok vn ∧
       get_register_expr sampleArch sampleNames "ax" "post" =
         .ok (.extract (.bitvec 32 vn) 0 16)) ∧
    (∃ vn, getVarName sampleNames "zz" "post" = .ok vn ∧
       get_register_expr sampleArch sampleNames "zz" "post" =
         .ok (.bitvec 8 vn)) := by
  constructor
  · exact (C7_get_register_expr sampleArch sampleNames "ax" "post"
      (Or.inr rfl)).1 "eax" 0 (by decide)
  · exact (C7_get_register_expr sampleArch sampleNames "zz" "post"
      (Or.inr rfl)).2 (by decide)

/-- Under the spec-modelled MSB-first concat semantics, reversing the list
of byte reads at `a, a+1, ..., a+n-1` makes the byte at the lowest address
the least significant: the value is the little-endian combination. -/
theorem msbValue_reverse_range (m : Nat → Nat) (mem : SmtExpr) (a n : Nat) :
    msbValue m (((List.range n).map
        (fun index => SmtExpr.select mem (a + index))).reverse) =
      ∑ index ∈ Finset.range n, m (a + index) % 256 * 256 ^ index := by
  induction n with
  | zero => simp [msbValue]
  | succ k ih =>
      rw [List.range_succ]
      simp only [List.map_append, List.reverse_append, List.map_cons,
                 List.map_nil, List.reverse_cons, List.reverse_nil,
                 List.nil_append, List.cons_append]
      rw [msbValue, ih, Finset.sum_range_succ]
      simp only [List.length_reverse, List.length_map, List.length_range]
      omega

/-- C8: `get_memory_expr(address, size, mode)` returns the concatenation of
`size` single-byte reads at `address .. address + size - 1`, reversed so
the read at the highest address comes first (most significant); mode `pre`
reads the translator's initial memory array, `post` its current one, any
other mode fails; and under the spec-modelled MSB-first concat semantics
the concatenated value is the little-endian combination of the bytes (the
byte at the lowest address is least significant). -/
theorem C8_get_memory_expr_little_endian (memInit memCur : SmtExpr)
    (address size : Nat) (m : Nat → Nat) :
    (get_memory_expr memInit memCur address size "pre" =
       .ok (.concat 8 (((List.range size).map
         (fun index => SmtExpr.select memInit (address + index))).reverse))) ∧
    (get_memory_expr memInit memCur address size "post" =
       .ok (.concat 8 (((List.range size).map
         (fun index => SmtExpr.select memCur (address + index))).reverse))) ∧
    (∀ mode, mode ≠ "pre" → mode ≠ "post" →
       get_memory_expr memInit memCur address size mode =
         .error "Exception") ∧
    (msbValue m (((List.range size).map
        (fun index => SmtExpr.select memCur (address + index))).reverse) =
      ∑ index ∈ Finset.range size,
        m (address + index) % 256 * 256 ^ index) := by
  refine ⟨?_, ?_, fun mode h1 h2 => ?_, ?_⟩
  · simp [get_memory_expr, get_memory]; rfl
  · simp [get_memory_expr, get_memory]; rfl
  · simp [get_memory_expr, get_memory, h1, h2]; rfl
  · exact msbValue_reverse_range m memCur address size

/-- Witness for C8: a 3-byte read at address 4 in `post` mode with bytes
`m 4 = 0x11`, `m 5 = 0x22`, `m 6 = 0x33` concatenates highest address
first and evaluates to `0x332211`. -/
theorem C8_get_memory_expr_little_endian_witness :
    (get_memory_expr (.memArray "mi") (.memArray "mc") 4 3 "post" =
       .ok (.concat 8 [.select (.memArray "mc") 6, .select (.memArray "mc") 5,
                       .select (.memArray "mc") 4])) ∧
    (get_memory_expr (.memArray "mi") (.memArray "mc") 4 3 "zzz" =
       .error "Exception") ∧
    (msbValue (fun a => if a = 4 then 0x11 else if a = 5 then 0x22
        else if a = 6 then 0x33 else 0)
      [.select (.memArray "mc") 6, .select (.memArray "mc") 5,
       .select (.memArray "mc") 4] = 0x332211) := by
  have h := C8_get_memory_expr_little_endian (.memArray "mi")
    (.memArray "mc") 4 3
    (fun a => if a = 4 then 0x11 else if a = 5 then 0x22
      else if a = 6 then 0x33 else 0)
  refine ⟨?_, h.2.2.1 "zzz" (by decide) (by decide), ?_⟩
  · have h2 := h.2.1
    rw [h2]
    rfl
  · have h4 := h.2.2.2
    have hl : (((List.range 3).map
        (fun index => SmtExpr.select (.memArray "mc") (4 + index))).reverse) =
        [SmtExpr.select (.memArray "mc") 6, .select (.memArray "mc") 5,
         .select (.memArray "mc") 4] := by rfl
    rw [hl] at h4
    rw [h4]
    rfl

/-- C9: operand-to-expression dispatch.  An architectural register operand
delegates to register resolution; a non-architectural (temporary) register
operand becomes a bit-vector named by the mode-appropriate naming at the
operand's declared width; an immediate operand becomes a constant of its
declared width and literal value; any other operand kind fails with the
invalid-operand error. -/
theorem C9_get_operand_expr_dispatch (arch : ArchInfo) (env : NameEnv)
    (mode : String) :
    (∀ name size, name ∈ arch.registers_all →
       get_operand_expr arch env (.register name size) mode =
         get_register_expr arch env name mode) ∧
    (∀ name size vn, name ∉ arch.registers_all →
       getVarName env name mode = .ok vn →
       get_operand_expr arch env (.register name size) mode =
         .ok (.bitvec size vn)) ∧
    (∀ value size, get_operand_expr arch env (.immediate value size) mode =
       .ok (.const size value)) ∧
    (get_operand_expr arch env .empty mode = .error "Invalid operand") := by
  refine ⟨fun name size hmem => ?_, fun name size vn hmem hvn => ?_,
          fun value size => ?_, ?_⟩
  · simp [get_operand_expr, hmem]
  · simp [get_operand_expr, hmem, hvn]; rfl
  · rfl
  · rfl

/-- Witness for C9: the architectural register `eax`, the temporary `t7`,
an immediate, and the empty operand, under `post` mode. -/
theorem C9_get_operand_expr_dispatch_witness :
    (get_operand_expr sampleArch sampleNames (.register "eax" 32) "post" =
       get_register_expr sampleArch sampleNames "eax" "post") ∧
    (get_operand_expr sampleArch sampleNames (.register "t7" 8) "post" =
       .ok (.bitvec 8 "t7_1")) ∧
    (get_operand_expr sampleArch sampleNames (.immediate 5 32) "post" =
       .ok (.const 32 5)) ∧
    (get_operand_expr sampleArch sampleNames .empty "post" =
       .error "Invalid operand") := by
  have h := C9_get_operand_expr_dispatch sampleArch sampleNames "post"
  exact ⟨h.1 "eax" 32 (by decide), h.2.1 "t7" 8 "t7_1" (by decide) rfl,
         h.2.2.1 5 32, h.2.2.2⟩
